import Mathlib

/-!
Verification of the spirometry curve-derivation pipeline in
`regle/generate_ukb_3066_demo_dataset.py`.

The pipeline's numeric arrays are embedded as `List ℚ` (Python floats are
modelled as exact rationals), raw device samples as `List Int`, and each
fatal failure mode (Python `assert` / `ValueError` / numpy errors) as an
explicit error value of an `Option` or `Except` result.
-/

/-- Python slice `l[:n]` for an `Int` bound `n`: a nonnegative bound takes the
first `n` elements (clamped to the length), a negative bound counts from the
end, clamping at zero. -/
def pySliceTo {α : Type} (l : List α) (n : Int) : List α :=
  if 0 ≤ n then l.take n.toNat else l.take ((l.length : Int) + n).toNat

/-- Embedding of the body of the `trim_records` loop for a single record:
`num_zeros = len(series) - num_points`;
`assert \x7b0\x7d == set(series[:num_zeros])` (the set of prefix elements must be
exactly the singleton zero, so the prefix must be nonempty and all-zero);
`trimmed_series = series[-(num_points + 1):]`;
`assert 0 == trimmed_series[0]`.
An assertion failure (or the `IndexError` on an empty trimmed series) is
`none`. -/
def trim_record (series : List Int) (num_points : Nat) : Option (List Int) :=
  let num_zeros : Int := (series.length : Int) - (num_points : Int)
  let leading := pySliceTo series num_zeros
  if leading ≠ [] ∧ leading.all (fun x => x = 0) then
    let trimmed := series.drop (series.length - (num_points + 1))
    match trimmed.head? with
    | some t0 => if t0 = 0 then some trimmed else none
    | none => none
  else none

/-- A UKB spirometry blow record: the identifier keys `eid`, `visit_id`,
`blow_order`, `blow_index`, the declared number of real points, and the raw
cumulative-volume series. -/
structure BlowRecord where
  eid : Int
  visit_id : Int
  blow_order : Int
  blow_index : Int
  num_points : Nat
  series : List Int
deriving DecidableEq

/-- One iteration of the `trim_records` loop: trim the record's series and
store the trimmed series back into the record (the Python loop mutates
`record[SPIRO_RECORD_SERIES_KEY]` in place). -/
def trimStep (r : BlowRecord) : Option BlowRecord :=
  (trim_record r.series r.num_points).map (fun t => { r with series := t })

/-- The `trim_records` loop over the whole record list, stopping at the first
assertion failure. -/
def trimAll : List BlowRecord → Option (List BlowRecord)
  | [] => some []
  | r :: rest =>
    match trimStep r, trimAll rest with
    | some r2, some rest2 => some (r2 :: rest2)
    | _, _ => none

/-- Model of `trim_records(records)`: runs the trimming loop, which rewrites each
record's `series` entry in place, and returns the post-call state of the
input record list together with `pd.DataFrame(records)`, whose rows are
exactly those (mutated) records. -/
def trim_records (records : List BlowRecord) : Option (List BlowRecord × List BlowRecord) :=
  match trimAll records with
  | some post => some (post, post)
  | none => none

/-- Model of `compute_volume(series, volume_scale)`: rescales the trimmed integer series
to a liter-based volume curve, `series * volume_scale`. -/
def compute_volume (series : List Int) (volume_scale : ℚ) : List ℚ :=
  series.map (fun s => (s : ℚ) * volume_scale)

/-- Model of `np.diff(l)`: the list of successive differences of `l`. -/
def np_diff (l : List ℚ) : List ℚ :=
  List.zipWith (fun a b => b - a) l l.tail

/-- Model of `compute_flow(volume, time_scale)`:
`np.concatenate(([0.0], np.diff(volume) / time_scale))`. -/
def compute_flow (volume : List ℚ) (time_scale : ℚ) : List ℚ :=
  0 :: (np_diff volume).map (fun d => d / time_scale)

/-- Model of `right_pad_array(array, pad_value, max_num_points)`: truncates the array to
at most `max_num_points` samples, then right-pads with `pad_value` up to
`max_num_points` (`np.pad` in constant mode). -/
def right_pad_array (array : List ℚ) (pad_value : ℚ) (max_num_points : Nat) : List ℚ :=
  let a := array.take (min array.length max_num_points)
  a ++ List.replicate (max_num_points - a.length) pad_value

/-- Model of `np.linspace(start, stop, num)` with the default inclusive endpoint:
`num` evenly spaced points from `start` to `stop` (`[start]` when `num = 1`,
empty when `num = 0`). -/
def np_linspace (start stop : ℚ) (num : Nat) : List ℚ :=
  (List.range num).map
    (fun (i : Nat) =>
      if num ≤ 1 then start else start + (i : ℚ) * (stop - start) / ((num : ℚ) - 1))

/-- Helper for `np.maximum.accumulate(l)`: the running (cumulative) maximum of `l`,
folded from the accumulator `acc`. -/
def np_maximum_accumulate_from (acc : ℚ) : List ℚ → List ℚ
  | [] => []
  | v :: rest => max acc v :: np_maximum_accumulate_from (max acc v) rest

/-- Model of `np.maximum.accumulate(l)`: the running maximum of `l`; entry `i` is the
maximum of `l[0..i]`. -/
def np_maximum_accumulate : List ℚ → List ℚ
  | [] => []
  | v :: rest => v :: np_maximum_accumulate_from v rest

/-- Interior loop of `np.interp` once the query `x` is known to be at least the
first sample point: advance to the last interval whose left endpoint is at
most `x` and interpolate linearly inside it. -/
def np_interp_go (x : ℚ) : List (ℚ × ℚ) → ℚ
  | [] => 0
  | [(_, f0)] => f0
  | (x0, f0) :: (x1, f1) :: rest =>
    if x1 ≤ x then np_interp_go x ((x1, f1) :: rest)
    else f0 + (f1 - f0) * (x - x0) / (x1 - x0)

/-- Model of `np.interp(x, xp, fp, left=0, right=0)` at one query point, for a
non-decreasing sample grid `xp`: queries strictly left of the first sample map
to `0`, queries strictly right of the last sample map to `0`, and interior
queries are linearly interpolated. -/
def np_interp_point (x : ℚ) (xp fp : List ℚ) : ℚ :=
  match xp with
  | [] => 0
  | x0 :: rest =>
    if x < x0 then 0
    else if (x0 :: rest).getLast (List.cons_ne_nil x0 rest) < x then 0
    else np_interp_go x ((x0 :: rest).zip fp)

/-- The failure modes of `compute_flow_volume`: the monotonicity `assert`, and
the `ValueError` raised by `np.interp` on an empty or length-mismatched sample
grid. -/
inductive CfvErr where
  | nonMonotonic
  | interpInvalid
deriving DecidableEq

/-- Model of `compute_flow_volume(flow, volume, min_volume, max_volume, num_points)`:
forces the volume curve monotonic with a running maximum, asserts
`np.all(np.diff(monotonic_volume) >= 0)`, builds `num_points` evenly spaced
query volumes over `[min_volume, max_volume]`, and linearly interpolates flow
against the monotonic volume with boundary value `0` on both sides. -/
def compute_flow_volume (flow volume : List ℚ) (min_volume max_volume : ℚ)
    (num_points : Nat) : Except CfvErr (List ℚ) :=
  let monotonic_volume := np_maximum_accumulate volume
  if (np_diff monotonic_volume).all (fun d => 0 ≤ d) then
    if monotonic_volume = [] ∨ flow.length ≠ monotonic_volume.length then
      .error .interpInvalid
    else
      .ok ((np_linspace min_volume max_volume num_points).map
        (fun q => np_interp_point q monotonic_volume flow))
  else .error .nonMonotonic

/-- Index of the first `true` in a boolean list, if any. -/
def firstTrue : List Bool → Option Nat
  | [] => none
  | b :: rest => if b then some 0 else (firstTrue rest).map (fun i => i + 1)

/-- Model of `np.argmax` on a boolean array: the index of the first `True`, or `0` when
every entry is `False` (the first occurrence of the maximum value). -/
def np_argmax_bool (l : List Bool) : Nat :=
  (firstTrue l).getD 0

/-- Model of `.mean()` of a numpy array: sum divided by length. -/
def listMean (l : List ℚ) : ℚ :=
  l.sum / (l.length : ℚ)

/-- Model of `np.max(l)` for a nonempty list (junk value `0` on the empty list, where
numpy raises). -/
def np_max : List ℚ → ℚ
  | [] => 0
  | v :: rest => rest.foldl max v

/-- The minimum of a nonempty list (junk value `0` on the empty list). -/
def np_min : List ℚ → ℚ
  | [] => 0
  | v :: rest => rest.foldl min v

/-- The failure modes of `compute_fef`: the two entry `assert`s, the
`ValueError` when no sample reaches 75% of `volume_max`, and the
monotonic-index `assert`. -/
inductive FefErr where
  | lengthMismatch
  | tooShort
  | noFef75
  | idxAssert
deriving DecidableEq

/-- Model of `compute_fef(flow, volume, volume_max)`: asserts equal lengths and length
greater than one, computes the three boolean threshold curves
`volume >= f * volume_max` for `f` in one quarter, one half, three quarters,
raises `ValueError` when no sample reaches the 75% threshold, takes the first
crossing index of each curve with `np.argmax`, asserts
`0 <= idx_25 <= idx_50 <= idx_75 < flow_size`, and returns the flow values at
those indices together with the mean of `flow[idx_25 : idx_75 + 1]`. -/
def compute_fef (flow volume : List ℚ) (volume_max : ℚ) :
    Except FefErr (ℚ × ℚ × ℚ × ℚ) :=
  if flow.length ≠ volume.length then .error .lengthMismatch
  else if ¬ 1 < flow.length then .error .tooShort
  else
    let volumes_over_25 := volume.map (fun v => decide ((1/4 : ℚ) * volume_max ≤ v))
    let volumes_over_50 := volume.map (fun v => decide ((1/2 : ℚ) * volume_max ≤ v))
    let volumes_over_75 := volume.map (fun v => decide ((3/4 : ℚ) * volume_max ≤ v))
    if ¬ volumes_over_75.any id then .error .noFef75
    else
      let idx_25 := np_argmax_bool volumes_over_25
      let idx_50 := np_argmax_bool volumes_over_50
      let idx_75 := np_argmax_bool volumes_over_75
      if idx_25 ≤ idx_50 ∧ idx_50 ≤ idx_75 ∧ idx_75 < flow.length then
        .ok (flow.getD idx_25 0, flow.getD idx_50 0, flow.getD idx_75 0,
          listMean ((flow.drop idx_25).take (idx_75 + 1 - idx_25)))
      else .error .idxAssert

/-- Written from the spec's words for the refinement comparison: `i` is the
smallest index at which the volume curve reaches the threshold `t` ("find the
index of the first sample where `volume >= f * volume_max`"). -/
def IsFirstCross (volume : List ℚ) (t : ℚ) (i : Nat) : Prop :=
  (∃ x, volume.get? i = some x ∧ t ≤ x) ∧
    ∀ j, j < i → ∀ y, volume.get? j = some y → y < t

/-! ### Helper lemmas: differences and the running maximum -/

theorem np_diff_nil : np_diff [] = [] := rfl

theorem np_diff_singleton (a : ℚ) : np_diff [a] = [] := rfl

theorem np_diff_cons_cons (a b : ℚ) (t : List ℚ) :
    np_diff (a :: b :: t) = (b - a) :: np_diff (b :: t) := rfl

theorem length_np_diff (l : List ℚ) : (np_diff l).length = l.length - 1 := by
  cases l with
  | nil => rfl
  | cons a t =>
    simp [np_diff, List.length_zipWith]

theorem np_maximum_accumulate_from_diff_nonneg (l : List ℚ) :
    ∀ acc : ℚ, (np_diff (acc :: np_maximum_accumulate_from acc l)).all
      (fun d => 0 ≤ d) = true := by
  induction l with
  | nil => intro acc; rfl
  | cons v rest ih =>
    intro acc
    simp only [np_maximum_accumulate_from, np_diff_cons_cons, List.all_cons,
      Bool.and_eq_true]
    refine And.intro ?_ (ih (max acc v))
    simp [le_max_iff]

/-- The running maximum has nonnegative successive differences. -/
theorem np_maximum_accumulate_diff_nonneg (volume : List ℚ) :
    (np_diff (np_maximum_accumulate volume)).all (fun d => 0 ≤ d) = true := by
  cases volume with
  | nil => rfl
  | cons v rest => exact np_maximum_accumulate_from_diff_nonneg rest v

/-! ### Helper lemmas: list maxima and minima -/

theorem le_foldl_max_acc (l : List ℚ) : ∀ acc : ℚ, acc ≤ l.foldl max acc := by
  induction l with
  | nil => intro acc; exact le_refl acc
  | cons x t ih =>
    intro acc
    exact le_trans (le_max_left acc x) (ih (max acc x))

theorem le_foldl_max_of_mem {l : List ℚ} {x : ℚ} (h : x ∈ l) :
    ∀ acc : ℚ, x ≤ l.foldl max acc := by
  induction l with
  | nil => cases h
  | cons y t ih =>
    intro acc
    rcases List.mem_cons.mp h with rfl | hm
    · exact le_trans (le_max_right acc x) (le_foldl_max_acc t (max acc x))
    · exact ih hm (max acc y)

theorem foldl_max_acc_or_mem (l : List ℚ) :
    ∀ acc : ℚ, l.foldl max acc = acc ∨ l.foldl max acc ∈ l := by
  induction l with
  | nil => intro acc; exact Or.inl rfl
  | cons x t ih =>
    intro acc
    rcases ih (max acc x) with h | h
    · rcases max_choice acc x with hm | hm
      · exact Or.inl (by rw [List.foldl_cons, h, hm])
      · exact Or.inr (by rw [List.foldl_cons, h, hm]; exact List.mem_cons_self x t)
    · exact Or.inr (List.mem_cons_of_mem x h)

theorem np_max_mem {l : List ℚ} (h : l ≠ []) : np_max l ∈ l := by
  cases l with
  | nil => exact absurd rfl h
  | cons x t =>
    rcases foldl_max_acc_or_mem t x with hx | hx
    · rw [np_max, hx]; exact List.mem_cons_self x t
    · exact List.mem_cons_of_mem x hx

theorem le_np_max_of_mem {l : List ℚ} {x : ℚ} (h : x ∈ l) : x ≤ np_max l := by
  cases l with
  | nil => cases h
  | cons y t =>
    rcases List.mem_cons.mp h with rfl | hm
    · exact le_foldl_max_acc t x
    · exact le_foldl_max_of_mem hm y

theorem foldl_min_acc_le (l : List ℚ) : ∀ acc : ℚ, l.foldl min acc ≤ acc := by
  induction l with
  | nil => intro acc; exact le_refl acc
  | cons x t ih =>
    intro acc
    exact le_trans (ih (min acc x)) (min_le_left acc x)

theorem np_min_le_head (x : ℚ) (t : List ℚ) : np_min (x :: t) ≤ x :=
  foldl_min_acc_le t x

/-! ### Helper lemmas: first `true` index -/

theorem firstTrue_eq_some_iff :
    ∀ (l : List Bool) (i : Nat), firstTrue l = some i ↔
      (l.get? i = some true ∧ ∀ j, j < i → l.get? j = some false)
  | [], i => by simp [firstTrue]
  | b :: t, i => by
    cases b with
    | true =>
      simp only [firstTrue, if_true]
      cases i with
      | zero => simp
      | succ k =>
        simp only [List.get?]
        constructor
        · intro h; simp at h
        · intro ⟨h1, h2⟩
          have := h2 0 (Nat.succ_pos k)
          simp at this
    | false =>
      simp only [firstTrue, Bool.false_eq_true, if_false, Option.map_eq_some']
      cases i with
      | zero =>
        simp only [List.get?]
        constructor
        · intro ⟨k, _, hk⟩; omega
        · intro ⟨h1, _⟩; simp at h1
      | succ k =>
        constructor
        · intro ⟨m, hm, hmk⟩
          have hm2 : m = k := by omega
          rw [hm2] at hm
          obtain ⟨hg, hl⟩ := (firstTrue_eq_some_iff t k).mp hm
          refine ⟨hg, fun j hj => ?_⟩
          cases j with
          | zero => rfl
          | succ n => exact hl n (by omega)
        · intro ⟨h1, h2⟩
          refine ⟨k, (firstTrue_eq_some_iff t k).mpr ⟨h1, fun n hn => h2 (n + 1) (by omega)⟩, rfl⟩

theorem firstTrue_isSome_of_any : ∀ {l : List Bool}, l.any id = true → ∃ i, firstTrue l = some i
  | [], h => by simp at h
  | b :: t, h => by
    cases b with
    | true => exact ⟨0, rfl⟩
    | false =>
      simp only [List.any_cons, id, Bool.false_or] at h
      obtain ⟨k, hk⟩ := firstTrue_isSome_of_any h
      exact ⟨k + 1, by simp [firstTrue, hk]⟩

theorem lt_length_of_firstTrue {l : List Bool} {i : Nat} (h : firstTrue l = some i) :
    i < l.length := by
  obtain ⟨hget, -⟩ := (firstTrue_eq_some_iff l i).mp h
  exact (List.get?_eq_some.mp hget).1

theorem firstTrue_map_le {v : List ℚ} {p q : ℚ → Bool}
    (himp : ∀ x, q x = true → p x = true) :
    ∀ i : Nat, firstTrue (v.map q) = some i →
      ∃ j, firstTrue (v.map p) = some j ∧ j ≤ i := by
  induction v with
  | nil => intro i h; simp [firstTrue] at h
  | cons x t ih =>
    intro i h
    by_cases hp : p x = true
    · exact ⟨0, by simp [firstTrue, hp], Nat.zero_le i⟩
    · have hq : q x = false := by
        cases hqx : q x with
        | false => rfl
        | true => exact absurd (himp x hqx) hp
      have hp2 : p x = false := by
        cases hpx : p x with
        | false => rfl
        | true => exact absurd hpx hp
      simp only [List.map_cons, firstTrue, hq, hp2, Bool.false_eq_true, if_false,
        Option.map_eq_some'] at h ⊢
      obtain ⟨k, hk, hki⟩ := h
      obtain ⟨j, hj, hjk⟩ := ih k hk
      exact ⟨j + 1, ⟨j, hj, rfl⟩, by omega⟩

/-! ### Further list helpers -/

theorem head?_drop_eq_get? {α : Type} : ∀ (l : List α) (n : Nat),
    (l.drop n).head? = l.get? n
  | [], n => by simp
  | x :: t, 0 => rfl
  | x :: t, n + 1 => by
    simp only [List.drop_succ_cons, List.get?_cons_succ]
    exact head?_drop_eq_get? t n

theorem np_diff_get? : ∀ (l : List ℚ) (j : Nat), j + 1 < l.length →
    (np_diff l).get? j = some (l.getD (j + 1) 0 - l.getD j 0)
  | [], j, h => by simp at h
  | [a], j, h => by simp at h
  | a :: b :: t, 0, h => by
    rw [np_diff_cons_cons]
    simp [List.getD]
  | a :: b :: t, k + 1, h => by
    rw [np_diff_cons_cons]
    simp only [List.get?_cons_succ, List.getD_cons_succ]
    exact np_diff_get? (b :: t) k (by simpa using h)

/-! ### Claims -/

/-- C10: the monotonicity assertion in `compute_flow_volume` is valid for every
input: the running-maximum sequence of any volume curve has nonnegative
successive differences, so the assertion passes and the
`Except.error CfvErr.nonMonotonic` branch is unreachable. -/
theorem C10_running_max_assert_unreachable (volume : List ℚ) :
    (np_diff (np_maximum_accumulate volume)).all (fun d => 0 ≤ d) = true ∧
    ∀ (flow : List ℚ) (min_volume max_volume : ℚ) (num_points : Nat),
      compute_flow_volume flow volume min_volume max_volume num_points ≠
        Except.error CfvErr.nonMonotonic := by
  refine ⟨np_maximum_accumulate_diff_nonneg volume, ?_⟩
  intro flow minv maxv n
  unfold compute_flow_volume
  rw [if_pos (np_maximum_accumulate_diff_nonneg volume)]
  split
  · intro h
    cases h
  · intro h
    cases h

/-- C10 witness: the running-maximum assertion holds on a concrete
out-of-order volume curve. -/
theorem C10_running_max_assert_witness :
    (np_diff (np_maximum_accumulate [1, 3, 2])).all (fun d => 0 ≤ d) = true ∧
    compute_flow_volume [0, 0, 0] [1, 3, 2] 0 1 2 ≠
      Except.error CfvErr.nonMonotonic :=
  ⟨(C10_running_max_assert_unreachable [1, 3, 2]).1,
    (C10_running_max_assert_unreachable [1, 3, 2]).2 [0, 0, 0] 0 1 2⟩

/-- C8: for a volume curve of length at least one and a nonzero time scale,
`compute_flow` returns a curve of the same length whose first entry is `0` and
whose entry `i ≥ 1` is the discrete derivative
`(volume[i] - volume[i-1]) / time_scale`. -/
theorem C8_flow_derivative (volume : List ℚ) (time_scale : ℚ)
    (hts : time_scale ≠ 0) (hlen : 1 ≤ volume.length) :
    (compute_flow volume time_scale).length = volume.length ∧
    (compute_flow volume time_scale).get? 0 = some 0 ∧
    ∀ i, 1 ≤ i → i < volume.length →
      (compute_flow volume time_scale).get? i =
        some ((volume.getD i 0 - volume.getD (i - 1) 0) / time_scale) := by
  refine ⟨?_, rfl, ?_⟩
  · simp only [compute_flow, List.length_cons, List.length_map, length_np_diff]
    omega
  · intro i h1 hi
    obtain ⟨j, rfl⟩ : ∃ j, i = j + 1 := ⟨i - 1, by omega⟩
    simp only [compute_flow, List.get?_cons_succ, List.get?_map]
    rw [np_diff_get? volume j (by omega)]
    simp

/-- C8 witness: the derivative identity at the spec's worked example,
`volume = [0, 1, 2, 3, 4]`, `time_scale = 1`. -/
theorem C8_flow_derivative_witness :
    (1 : ℚ) ≠ 0 ∧ 1 ≤ ([0, 1, 2, 3, 4] : List ℚ).length ∧
    ((compute_flow [0, 1, 2, 3, 4] 1).length = ([0, 1, 2, 3, 4] : List ℚ).length ∧
      (compute_flow [0, 1, 2, 3, 4] 1).get? 0 = some 0 ∧
      ∀ i, 1 ≤ i → i < ([0, 1, 2, 3, 4] : List ℚ).length →
        (compute_flow [0, 1, 2, 3, 4] 1).get? i =
          some ((([0, 1, 2, 3, 4] : List ℚ).getD i 0 -
            ([0, 1, 2, 3, 4] : List ℚ).getD (i - 1) 0) / 1)) :=
  ⟨one_ne_zero, by simp,
    C8_flow_derivative [0, 1, 2, 3, 4] 1 one_ne_zero (by simp)⟩

/-- C3: `right_pad_array(curve, fill, N)` always has length `N`; it equals
`curve[:N]` when the curve is long enough and `curve ++ [fill] * (N - len)`
otherwise; its last element is the fill value after padding and the curve's
`N`-th sample after truncation. -/
theorem C3_right_pad_array_spec (curve : List ℚ) (fill : ℚ) (N : Nat) :
    (right_pad_array curve fill N).length = N ∧
    right_pad_array curve fill N =
      (if N ≤ curve.length then curve.take N
       else curve ++ List.replicate (N - curve.length) fill) ∧
    (right_pad_array curve fill N).getLast? =
      (if N = 0 then none
       else if curve.length < N then some fill
       else curve.get? (N - 1)) := by
  by_cases h : N ≤ curve.length
  · have hmin : min curve.length N = N := min_eq_right h
    have heq : right_pad_array curve fill N = curve.take N := by
      simp only [right_pad_array, hmin, List.length_take]
      rw [min_comm, hmin, Nat.sub_self, List.replicate_zero, List.append_nil]
    have hlen : (curve.take N).length = N := by
      rw [List.length_take, min_comm, hmin]
    refine ⟨by rw [heq, hlen], by rw [heq, if_pos h], ?_⟩
    rw [heq, if_neg (by omega : ¬ curve.length < N)]
    by_cases hN : N = 0
    · subst hN; simp
    · rw [if_neg hN]
      rw [List.getLast?_eq_getElem?, hlen, List.get?_eq_getElem?]
      exact List.getElem?_take_of_lt (by omega)
  · have hlt : curve.length < N := by omega
    have hmin : min curve.length N = curve.length := min_eq_left (by omega)
    have heq : right_pad_array curve fill N =
        curve ++ List.replicate (N - curve.length) fill := by
      simp [right_pad_array, hmin]
    refine ⟨?_, by rw [heq, if_neg h], ?_⟩
    · rw [heq]
      simp only [List.length_append, List.length_replicate]
      omega
    · rw [heq, if_neg (by omega : ¬ N = 0), if_pos hlt]
      rw [List.getLast?_append, List.getLast?_replicate,
        if_neg (by omega : ¬ N - curve.length = 0)]
      rfl

theorem trim_record_ok (series : List Int) (num_points : Nat)
    (h1 : num_points + 1 ≤ series.length)
    (h0 : ∀ x ∈ series.take (series.length - num_points), x = 0) :
    trim_record series num_points =
      some (series.drop (series.length - (num_points + 1))) ∧
    (series.drop (series.length - (num_points + 1))).length = num_points + 1 ∧
    (series.drop (series.length - (num_points + 1))).head? = some 0 := by
  have hslice : pySliceTo series ((series.length : Int) - (num_points : Int)) =
      series.take (series.length - num_points) := by
    rw [pySliceTo, if_pos (by omega : (0 : Int) ≤ (series.length : Int) - num_points)]
    congr 1
    omega
  have hne : series.take (series.length - num_points) ≠ [] := by
    intro hc
    have := congrArg List.length hc
    simp only [List.length_take, List.length_nil] at this
    omega
  have hall : (series.take (series.length - num_points)).all (fun x => x = 0) = true := by
    rw [List.all_eq_true]
    intro x hx
    exact decide_eq_true (h0 x hx)
  have hk : series.length - (num_points + 1) < series.length - num_points := by omega
  have hkn : series.length - (num_points + 1) < series.length := by omega
  have hhead : (series.drop (series.length - (num_points + 1))).head? = some 0 := by
    rw [head?_drop_eq_get?, List.get?_eq_getElem?]
    rw [List.getElem?_eq_some_iff]
    refine ⟨hkn, ?_⟩
    have hmemtake : series[series.length - (num_points + 1)] ∈
        series.take (series.length - num_points) := by
      have := List.getElem?_take_of_lt (l := series) hk
      rw [List.getElem?_eq_getElem hkn] at this
      exact List.getElem?_mem this
    exact h0 _ hmemtake
  refine ⟨?_, ?_, hhead⟩
  · rw [trim_record]
    simp only [hslice]
    rw [if_pos ⟨hne, hall⟩, hhead]
    simp
  · rw [List.length_drop]
    omega

theorem trimAll_ok (records : List BlowRecord)
    (hinv : ∀ r ∈ records, 1 ≤ r.num_points ∧ r.num_points + 1 ≤ r.series.length ∧
      ∀ x ∈ r.series.take (r.series.length - r.num_points), x = 0) :
    ∃ post, trimAll records = some post ∧
      List.Forall₂ (fun r r2 => r2.series.length = r.num_points + 1 ∧
        r2.series.head? = some 0) records post := by
  induction records with
  | nil => exact ⟨[], rfl, List.Forall₂.nil⟩
  | cons r rest ih =>
    obtain ⟨-, h1, h0⟩ := hinv r (List.mem_cons_self r rest)
    obtain ⟨hok, hlen, hhd⟩ := trim_record_ok r.series r.num_points h1 h0
    obtain ⟨post, hpost, hfa⟩ := ih (fun x hx => hinv x (List.mem_cons_of_mem r hx))
    refine ⟨{ r with series := r.series.drop (r.series.length - (r.num_points + 1)) } :: post,
      ?_, List.Forall₂.cons ⟨hlen, hhd⟩ hfa⟩
    rw [trimAll, trimStep, hok, hpost]
    rfl

theorem trimAll_post_state (records : List BlowRecord) :
    ∀ post, trimAll records = some post →
      List.Forall₂ (fun r r2 =>
        r2.eid = r.eid ∧ r2.visit_id = r.visit_id ∧ r2.blow_order = r.blow_order ∧
        r2.blow_index = r.blow_index ∧ r2.num_points = r.num_points ∧
        trim_record r.series r.num_points = some r2.series) records post := by
  induction records with
  | nil =>
    intro post h
    cases h
    exact List.Forall₂.nil
  | cons r rest ih =>
    intro post h
    rw [trimAll] at h
    cases hstep : trimStep r with
    | none => rw [hstep] at h; cases h
    | some r2 =>
      cases hrest : trimAll rest with
      | none => rw [hstep, hrest] at h; cases h
      | some prest =>
        rw [hstep, hrest] at h
        cases h
        rw [trimStep, Option.map_eq_some'] at hstep
        obtain ⟨t, ht, rfl⟩ := hstep
        exact List.Forall₂.cons ⟨rfl, rfl, rfl, rfl, rfl, by rw [ht]⟩ (ih prest hrest)

/-- C1 counterexample: the record with `num_points = 1`, `raw_series = [5]`
satisfies the claim's input invariant (the zero prefix of length
`len(raw_series) - num_points = 0` is empty, hence vacuously all-zero), yet
`trim_records` fails: the assertion that the set of prefix elements equals
the singleton zero cannot hold for an empty prefix. -/
theorem C1_counterexample :
    1 ≤ (1 : Nat) ∧
    (1 : Nat) ≤ ([5] : List Int).length ∧
    (∀ x ∈ ([5] : List Int).take (([5] : List Int).length - 1), x = 0) ∧
    trim_records [⟨0, 0, 0, 0, 1, [5]⟩] = none := by decide

/-- C1 (amended): for every record list in which each record has
`num_points >= 1`, `len(raw_series) >= num_points + 1` (so the zero-padding
run is nonempty), and an all-zero prefix of length
`len(raw_series) - num_points`, `trim_records` succeeds and each trimmed
series has length `num_points + 1` and first element `0`. -/
theorem C1_trim_invariant (records : List BlowRecord)
    (hinv : ∀ r ∈ records, 1 ≤ r.num_points ∧ r.num_points + 1 ≤ r.series.length ∧
      ∀ x ∈ r.series.take (r.series.length - r.num_points), x = 0) :
    ∃ post, trim_records records = some (post, post) ∧
      List.Forall₂ (fun r r2 => r2.series.length = r.num_points + 1 ∧
        r2.series.head? = some 0) records post := by
  obtain ⟨post, hpost, hfa⟩ := trimAll_ok records hinv
  exact ⟨post, by rw [trim_records, hpost], hfa⟩

/-- C1 witness: the amended trim invariant at the concrete record
`num_points = 2`, `raw_series = [0, 0, 3]`. -/
theorem C1_trim_invariant_witness :
    (∀ r ∈ ([⟨0, 0, 0, 0, 2, [0, 0, 3]⟩] : List BlowRecord),
      1 ≤ r.num_points ∧ r.num_points + 1 ≤ r.series.length ∧
      ∀ x ∈ r.series.take (r.series.length - r.num_points), x = 0) ∧
    ∃ post, trim_records ([⟨0, 0, 0, 0, 2, [0, 0, 3]⟩] : List BlowRecord) = some (post, post) ∧
      List.Forall₂ (fun (r r2 : BlowRecord) => r2.series.length = r.num_points + 1 ∧
        r2.series.head? = some 0) ([⟨0, 0, 0, 0, 2, [0, 0, 3]⟩] : List BlowRecord) post :=
  ⟨by decide, C1_trim_invariant [⟨0, 0, 0, 0, 2, [0, 0, 3]⟩] (by decide)⟩

/-- C2 counterexample: running `trim_records` on the record with
`num_points = 1` and `series = [0, 0, 1]` leaves the input record list in a
state where the record's series is `[0, 1]`, which differs from the original
`[0, 0, 1]`: the input record is mutated, contradicting "no side effects". -/
theorem C2_counterexample :
    trim_records [⟨1, 0, 0, 0, 1, [0, 0, 1]⟩] =
      some ([⟨1, 0, 0, 0, 1, [0, 1]⟩], [⟨1, 0, 0, 0, 1, [0, 1]⟩]) ∧
    ([0, 1] : List Int) ≠ [0, 0, 1] := by decide

/-- C2 (amended): whenever `trim_records` returns, the post-call state of the
input record list has each record's `series` entry replaced by its trimmed
series (all other fields unchanged), and the returned dataframe's rows are
exactly those mutated records. -/
theorem C2_trim_mutation (records post df : List BlowRecord)
    (h : trim_records records = some (post, df)) :
    df = post ∧
    List.Forall₂ (fun r r2 =>
      r2.eid = r.eid ∧ r2.visit_id = r.visit_id ∧ r2.blow_order = r.blow_order ∧
      r2.blow_index = r.blow_index ∧ r2.num_points = r.num_points ∧
      trim_record r.series r.num_points = some r2.series) records post := by
  rw [trim_records] at h
  cases hall : trimAll records with
  | none => rw [hall] at h; cases h
  | some p =>
    rw [hall] at h
    have h2 : p = post ∧ p = df := by
      have := h
      simp only [Option.some.injEq, Prod.mk.injEq] at this
      exact this
    obtain ⟨hp1, hp2⟩ := h2
    subst hp1
    subst hp2
    exact ⟨rfl, trimAll_post_state records p hall⟩

/-- C2 witness: the mutation description at the concrete record
`num_points = 1`, `series = [0, 0, 5]`. -/
theorem C2_trim_mutation_witness :
    trim_records [⟨2, 0, 0, 0, 1, [0, 0, 5]⟩] =
      some ([⟨2, 0, 0, 0, 1, [0, 5]⟩], [⟨2, 0, 0, 0, 1, [0, 5]⟩]) ∧
    (([⟨2, 0, 0, 0, 1, [0, 5]⟩] : List BlowRecord) = ([⟨2, 0, 0, 0, 1, [0, 5]⟩] : List BlowRecord) ∧
      List.Forall₂ (fun (r r2 : BlowRecord) =>
        r2.eid = r.eid ∧ r2.visit_id = r.visit_id ∧ r2.blow_order = r.blow_order ∧
        r2.blow_index = r.blow_index ∧ r2.num_points = r.num_points ∧
        trim_record r.series r.num_points = some r2.series)
        ([⟨2, 0, 0, 0, 1, [0, 0, 5]⟩] : List BlowRecord)
        ([⟨2, 0, 0, 0, 1, [0, 5]⟩] : List BlowRecord)) :=
  ⟨by decide, C2_trim_mutation [⟨2, 0, 0, 0, 1, [0, 0, 5]⟩]
    [⟨2, 0, 0, 0, 1, [0, 5]⟩] [⟨2, 0, 0, 0, 1, [0, 5]⟩] (by decide)⟩

theorem firstTrue_map_decide_iff (volume : List ℚ) (t : ℚ) (i : Nat) :
    firstTrue (volume.map (fun v => decide (t ≤ v))) = some i ↔
      IsFirstCross volume t i := by
  rw [firstTrue_eq_some_iff, IsFirstCross]
  constructor
  · intro ⟨h1, h2⟩
    rw [List.get?_map] at h1
    constructor
    · cases hv : volume.get? i with
      | none => rw [hv] at h1; cases h1
      | some x =>
        rw [hv] at h1
        refine ⟨x, rfl, ?_⟩
        simpa using h1
    · intro j hj y hy
      have := h2 j hj
      rw [List.get?_map, hy] at this
      simpa using this
  · intro ⟨⟨x, hx, hxt⟩, h2⟩
    have hi : i < volume.length := (List.get?_eq_some.mp hx).1
    constructor
    · rw [List.get?_map, hx]
      simpa using hxt
    · intro j hj
      have hjlen : j < volume.length := by omega
      have hy2 : volume.get? j = some (volume.get ⟨j, hjlen⟩) :=
        List.get?_eq_some.mpr ⟨hjlen, rfl⟩
      rw [List.get?_map, hy2]
      have := h2 j hj _ hy2
      simpa using not_le.mpr this

theorem compute_fef_ok_of (flow volume : List ℚ) (vm : ℚ)
    (hlen : flow.length = volume.length) (hgt : 1 < flow.length) (hvm : 0 ≤ vm)
    (hany : (volume.map (fun v => decide ((3/4 : ℚ) * vm ≤ v))).any id = true) :
    ∃ i25 i50 i75,
      firstTrue (volume.map (fun v => decide ((1/4 : ℚ) * vm ≤ v))) = some i25 ∧
      firstTrue (volume.map (fun v => decide ((1/2 : ℚ) * vm ≤ v))) = some i50 ∧
      firstTrue (volume.map (fun v => decide ((3/4 : ℚ) * vm ≤ v))) = some i75 ∧
      i25 ≤ i50 ∧ i50 ≤ i75 ∧ i75 < flow.length ∧
      compute_fef flow volume vm =
        Except.ok (flow.getD i25 0, flow.getD i50 0, flow.getD i75 0,
          listMean ((flow.drop i25).take (i75 + 1 - i25))) := by
  obtain ⟨i75, h75⟩ := firstTrue_isSome_of_any hany
  have himp75_50 : ∀ x : ℚ, decide ((3/4 : ℚ) * vm ≤ x) = true →
      decide ((1/2 : ℚ) * vm ≤ x) = true := by
    intro x hx
    rw [decide_eq_true_eq] at hx ⊢
    linarith
  have himp50_25 : ∀ x : ℚ, decide ((1/2 : ℚ) * vm ≤ x) = true →
      decide ((1/4 : ℚ) * vm ≤ x) = true := by
    intro x hx
    rw [decide_eq_true_eq] at hx ⊢
    linarith
  obtain ⟨i50, h50, h50le⟩ := firstTrue_map_le himp75_50 i75 h75
  obtain ⟨i25, h25, h25le⟩ := firstTrue_map_le himp50_25 i50 h50
  have hlt : i75 < flow.length := by
    have := lt_length_of_firstTrue h75
    rw [List.length_map] at this
    omega
  refine ⟨i25, i50, i75, h25, h50, h75, h25le, h50le, hlt, ?_⟩
  have e25 : np_argmax_bool (volume.map (fun v => decide ((1/4 : ℚ) * vm ≤ v))) = i25 := by
    rw [np_argmax_bool, h25]
    rfl
  have e50 : np_argmax_bool (volume.map (fun v => decide ((1/2 : ℚ) * vm ≤ v))) = i50 := by
    rw [np_argmax_bool, h50]
    rfl
  have e75 : np_argmax_bool (volume.map (fun v => decide ((3/4 : ℚ) * vm ≤ v))) = i75 := by
    rw [np_argmax_bool, h75]
    rfl
  rw [compute_fef]
  rw [if_neg (fun hc => hc hlen), if_neg (fun hc => hc hgt)]
  simp only [e25, e50, e75]
  rw [if_neg (fun hc => hc hany), if_pos ⟨h25le, h50le, hlt⟩]

/-- C4 counterexample: with `flow = [0, 0]`, `volume = [-3, -1]` and
`volume_max = -4`, the claim's preconditions hold (equal lengths greater than
one, and the sample `-3` satisfies `volume >= 0.75 * volume_max = -3`), yet
`compute_fef` does not return the FEF tuple: the index assertion fails,
because for a negative `volume_max` the threshold order is reversed. -/
theorem C4_counterexample :
    (([0, 0] : List ℚ).length = ([-3, -1] : List ℚ).length ∧
      1 < ([0, 0] : List ℚ).length ∧
      (∃ x ∈ ([-3, -1] : List ℚ), (3/4 : ℚ) * (-4) ≤ x)) ∧
    compute_fef [0, 0] [-3, -1] (-4) = Except.error FefErr.idxAssert := by
  refine ⟨⟨rfl, by norm_num, ⟨-3, by norm_num, by norm_num⟩⟩, ?_⟩
  norm_num [compute_fef, np_argmax_bool, firstTrue]

/-- C4 (amended): under the claim's preconditions strengthened with
`volume_max >= 0`, `compute_fef` returns the flow values at the smallest
indices where volume reaches one quarter, one half, and three quarters of
`volume_max`, together with the mean of flow over the inclusive index range
from the first to the third index. -/
theorem C4_fef_values (flow volume : List ℚ) (vm : ℚ)
    (hlen : flow.length = volume.length) (hgt : 1 < flow.length) (hvm : 0 ≤ vm)
    (hreach : ∃ x ∈ volume, (3/4 : ℚ) * vm ≤ x) :
    ∃ i25 i50 i75,
      IsFirstCross volume ((1/4 : ℚ) * vm) i25 ∧
      IsFirstCross volume ((1/2 : ℚ) * vm) i50 ∧
      IsFirstCross volume ((3/4 : ℚ) * vm) i75 ∧
      compute_fef flow volume vm =
        Except.ok (flow.getD i25 0, flow.getD i50 0, flow.getD i75 0,
          listMean ((flow.drop i25).take (i75 + 1 - i25))) := by
  have hany : (volume.map (fun v => decide ((3/4 : ℚ) * vm ≤ v))).any id = true := by
    rw [List.any_eq_true]
    obtain ⟨x, hx, hxt⟩ := hreach
    exact ⟨decide ((3/4 : ℚ) * vm ≤ x), List.mem_map_of_mem _ hx, by simpa using hxt⟩
  obtain ⟨i25, i50, i75, h25, h50, h75, -, -, -, hok⟩ :=
    compute_fef_ok_of flow volume vm hlen hgt hvm hany
  exact ⟨i25, i50, i75, (firstTrue_map_decide_iff volume _ i25).mp h25,
    (firstTrue_map_decide_iff volume _ i50).mp h50,
    (firstTrue_map_decide_iff volume _ i75).mp h75, hok⟩

/-- C4 witness: the FEF output description at the spec's worked example,
`flow = [0, 1, 1, 1, 1]`, `volume = [0, 1, 2, 3, 4]`, `volume_max = 4`. -/
theorem C4_fef_values_witness :
    (([0, 1, 1, 1, 1] : List ℚ).length = ([0, 1, 2, 3, 4] : List ℚ).length ∧
      1 < ([0, 1, 1, 1, 1] : List ℚ).length ∧ (0 : ℚ) ≤ 4 ∧
      (∃ x ∈ ([0, 1, 2, 3, 4] : List ℚ), (3/4 : ℚ) * 4 ≤ x)) ∧
    (∃ i25 i50 i75,
      IsFirstCross [0, 1, 2, 3, 4] ((1/4 : ℚ) * 4) i25 ∧
      IsFirstCross [0, 1, 2, 3, 4] ((1/2 : ℚ) * 4) i50 ∧
      IsFirstCross [0, 1, 2, 3, 4] ((3/4 : ℚ) * 4) i75 ∧
      compute_fef [0, 1, 1, 1, 1] [0, 1, 2, 3, 4] 4 =
        Except.ok (([0, 1, 1, 1, 1] : List ℚ).getD i25 0,
          ([0, 1, 1, 1, 1] : List ℚ).getD i50 0,
          ([0, 1, 1, 1, 1] : List ℚ).getD i75 0,
          listMean ((([0, 1, 1, 1, 1] : List ℚ).drop i25).take (i75 + 1 - i25)))) :=
  ⟨⟨rfl, by norm_num, by norm_num, ⟨4, by norm_num, by norm_num⟩⟩,
    C4_fef_values [0, 1, 1, 1, 1] [0, 1, 2, 3, 4] 4 rfl (by norm_num) (by norm_num)
      ⟨4, by norm_num, by norm_num⟩⟩

/-- C5 counterexample: with `flow = [0, 0]`, `volume = [-3, -1]` and
`volume_max = -4`, a sample reaches three quarters of `volume_max`, yet
`compute_fef` still fails (via the index assertion), so "fails if and only if
no sample reaches the threshold" is false for a negative `volume_max`. -/
theorem C5_counterexample :
    (([0, 0] : List ℚ).length = ([-3, -1] : List ℚ).length ∧
      1 < ([0, 0] : List ℚ).length) ∧
    (∃ x ∈ ([-3, -1] : List ℚ), (3/4 : ℚ) * (-4) ≤ x) ∧
    (∃ e, compute_fef [0, 0] [-3, -1] (-4) = Except.error e) := by
  refine ⟨⟨rfl, by norm_num⟩, ⟨-3, by norm_num, by norm_num⟩, FefErr.idxAssert, ?_⟩
  norm_num [compute_fef, np_argmax_bool, firstTrue]

/-- C5 (amended): for equal-length flow/volume curves of length greater than
one and `volume_max >= 0`, `compute_fef` fails exactly when no sample of the
volume curve reaches three quarters of `volume_max`; a failure carries an
error value and no FEF values. -/
theorem C5_fef_error_iff (flow volume : List ℚ) (vm : ℚ)
    (hlen : flow.length = volume.length) (hgt : 1 < flow.length) (hvm : 0 ≤ vm) :
    (∃ e, compute_fef flow volume vm = Except.error e) ↔
      ¬ ∃ x ∈ volume, (3/4 : ℚ) * vm ≤ x := by
  constructor
  · intro ⟨e, he⟩ hreach
    obtain ⟨i25, i50, i75, -, -, -, -, -, -, hok⟩ :=
      compute_fef_ok_of flow volume vm hlen hgt hvm (by
        rw [List.any_eq_true]
        obtain ⟨x, hx, hxt⟩ := hreach
        exact ⟨decide ((3/4 : ℚ) * vm ≤ x), List.mem_map_of_mem _ hx, by simpa using hxt⟩)
    rw [hok] at he
    cases he
  · intro hno
    have hany : (volume.map (fun v => decide ((3/4 : ℚ) * vm ≤ v))).any id = false := by
      rw [← Bool.not_eq_true, List.any_eq_true]
      intro ⟨b, hb, hbt⟩
      obtain ⟨x, hx, rfl⟩ := List.mem_map.mp hb
      exact hno ⟨x, hx, by simpa using hbt⟩
    refine ⟨FefErr.noFef75, ?_⟩
    rw [compute_fef, if_neg (fun hc => hc hlen), if_neg (fun hc => hc hgt)]
    rw [if_pos (by rw [hany]; exact Bool.false_ne_true)]

/-- C5 witness: the failure equivalence at the concrete curves
`flow = [5, 6]`, `volume = [3, 1]`, `volume_max = 4` (an insufficient blow). -/
theorem C5_fef_error_iff_witness :
    (([5, 6] : List ℚ).length = ([3, 1] : List ℚ).length ∧
      1 < ([5, 6] : List ℚ).length ∧ (0 : ℚ) ≤ 4) ∧
    ((∃ e, compute_fef [5, 6] [3, 1] 4 = Except.error e) ↔
      ¬ ∃ x ∈ ([3, 1] : List ℚ), (3/4 : ℚ) * 4 ≤ x) :=
  ⟨⟨rfl, by norm_num, by norm_num⟩,
    C5_fef_error_iff [5, 6] [3, 1] 4 rfl (by norm_num) (by norm_num)⟩

/-- C7 counterexample: with `volume = [-3, -1]` and `volume_max = -4` the
75% threshold is reachable, but the first-crossing indices are not monotonic
(`idx_50 = 1 > 0 = idx_75`), and the assertion in `compute_fef` fails. -/
theorem C7_counterexample :
    (([0, 0] : List ℚ).length = ([-3, -1] : List ℚ).length ∧
      1 < ([0, 0] : List ℚ).length ∧
      (∃ x ∈ ([-3, -1] : List ℚ), (3/4 : ℚ) * (-4) ≤ x)) ∧
    ¬ np_argmax_bool (([-3, -1] : List ℚ).map
        (fun v => decide ((1/2 : ℚ) * (-4) ≤ v))) ≤
      np_argmax_bool (([-3, -1] : List ℚ).map
        (fun v => decide ((3/4 : ℚ) * (-4) ≤ v))) ∧
    compute_fef [0, 0] [-3, -1] (-4) = Except.error FefErr.idxAssert := by
  refine ⟨⟨rfl, by norm_num, ⟨-3, by norm_num, by norm_num⟩⟩, ?_, ?_⟩
  · norm_num [np_argmax_bool, firstTrue]
  · norm_num [compute_fef, np_argmax_bool, firstTrue]

/-- C7 (amended): when the 75% threshold is reachable and `volume_max >= 0`,
the first-crossing indices satisfy `idx_25 <= idx_50 <= idx_75 < len(flow)`,
so the assertion in `compute_fef` never fails. -/
theorem C7_fef_idx_monotone (flow volume : List ℚ) (vm : ℚ)
    (hlen : flow.length = volume.length) (hgt : 1 < flow.length) (hvm : 0 ≤ vm)
    (hreach : ∃ x ∈ volume, (3/4 : ℚ) * vm ≤ x) :
    (np_argmax_bool (volume.map (fun v => decide ((1/4 : ℚ) * vm ≤ v))) ≤
      np_argmax_bool (volume.map (fun v => decide ((1/2 : ℚ) * vm ≤ v))) ∧
     np_argmax_bool (volume.map (fun v => decide ((1/2 : ℚ) * vm ≤ v))) ≤
      np_argmax_bool (volume.map (fun v => decide ((3/4 : ℚ) * vm ≤ v))) ∧
     np_argmax_bool (volume.map (fun v => decide ((3/4 : ℚ) * vm ≤ v))) <
      flow.length) ∧
    compute_fef flow volume vm ≠ Except.error FefErr.idxAssert := by
  have hany : (volume.map (fun v => decide ((3/4 : ℚ) * vm ≤ v))).any id = true := by
    rw [List.any_eq_true]
    obtain ⟨x, hx, hxt⟩ := hreach
    exact ⟨decide ((3/4 : ℚ) * vm ≤ x), List.mem_map_of_mem _ hx, by simpa using hxt⟩
  obtain ⟨i25, i50, i75, h25, h50, h75, h1, h2, h3, hok⟩ :=
    compute_fef_ok_of flow volume vm hlen hgt hvm hany
  have e25 : np_argmax_bool (volume.map (fun v => decide ((1/4 : ℚ) * vm ≤ v))) = i25 := by
    rw [np_argmax_bool, h25]
    rfl
  have e50 : np_argmax_bool (volume.map (fun v => decide ((1/2 : ℚ) * vm ≤ v))) = i50 := by
    rw [np_argmax_bool, h50]
    rfl
  have e75 : np_argmax_bool (volume.map (fun v => decide ((3/4 : ℚ) * vm ≤ v))) = i75 := by
    rw [np_argmax_bool, h75]
    rfl
  refine ⟨⟨by rw [e25, e50]; exact h1, by rw [e50, e75]; exact h2, by rw [e75]; exact h3⟩, ?_⟩
  rw [hok]
  intro hc
  cases hc

/-- C7 witness: index monotonicity at the spec's worked example,
`flow = [0, 1, 1, 1, 1]`, `volume = [0, 1, 2, 3, 4]`, `volume_max = 4`. -/
theorem C7_fef_idx_monotone_witness :
    (([0, 1, 1, 1, 1] : List ℚ).length = ([0, 1, 2, 3, 4] : List ℚ).length ∧
      1 < ([0, 1, 1, 1, 1] : List ℚ).length ∧ (0 : ℚ) ≤ 4 ∧
      (∃ x ∈ ([0, 1, 2, 3, 4] : List ℚ), (3/4 : ℚ) * 4 ≤ x)) ∧
    ((np_argmax_bool (([0, 1, 2, 3, 4] : List ℚ).map
        (fun v => decide ((1/4 : ℚ) * 4 ≤ v))) ≤
      np_argmax_bool (([0, 1, 2, 3, 4] : List ℚ).map
        (fun v => decide ((1/2 : ℚ) * 4 ≤ v))) ∧
      np_argmax_bool (([0, 1, 2, 3, 4] : List ℚ).map
        (fun v => decide ((1/2 : ℚ) * 4 ≤ v))) ≤
      np_argmax_bool (([0, 1, 2, 3, 4] : List ℚ).map
        (fun v => decide ((3/4 : ℚ) * 4 ≤ v))) ∧
      np_argmax_bool (([0, 1, 2, 3, 4] : List ℚ).map
        (fun v => decide ((3/4 : ℚ) * 4 ≤ v))) < ([0, 1, 1, 1, 1] : List ℚ).length) ∧
      compute_fef [0, 1, 1, 1, 1] [0, 1, 2, 3, 4] 4 ≠ Except.error FefErr.idxAssert) :=
  ⟨⟨rfl, by norm_num, by norm_num, ⟨4, by norm_num, by norm_num⟩⟩,
    C7_fef_idx_monotone [0, 1, 1, 1, 1] [0, 1, 2, 3, 4] 4 rfl (by norm_num) (by norm_num)
      ⟨4, by norm_num, by norm_num⟩⟩

/-- C9: in the pipeline's own use of `compute_fef`, where `volume_max` is
passed as `max(volume)`, the insufficient-data `ValueError` is unreachable
whenever the maximum is nonnegative: the sample attaining the maximum
satisfies `volume >= 0.75 * volume_max`. -/
theorem C9_valueerror_unreachable (volume : List ℚ)
    (hne : volume ≠ []) (hmax : 0 ≤ np_max volume) :
    (∃ x ∈ volume, x = np_max volume ∧ (3/4 : ℚ) * np_max volume ≤ x) ∧
    ∀ flow : List ℚ,
      compute_fef flow volume (np_max volume) ≠ Except.error FefErr.noFef75 := by
  have hmem : np_max volume ∈ volume := np_max_mem hne
  have hself : (3/4 : ℚ) * np_max volume ≤ np_max volume := by linarith
  refine ⟨⟨np_max volume, hmem, rfl, hself⟩, ?_⟩
  intro flow hc
  have hany : (volume.map (fun v => decide ((3/4 : ℚ) * np_max volume ≤ v))).any id = true := by
    rw [List.any_eq_true]
    exact ⟨decide ((3/4 : ℚ) * np_max volume ≤ np_max volume),
      List.mem_map_of_mem _ hmem, by simpa using hself⟩
  rw [compute_fef] at hc
  by_cases h1 : flow.length ≠ volume.length
  · rw [if_pos h1] at hc
    cases hc
  · rw [if_neg h1] at hc
    by_cases h2 : ¬ 1 < flow.length
    · rw [if_pos h2] at hc
      cases hc
    · rw [if_neg h2, if_neg (fun hneg => hneg hany)] at hc
      by_cases h3 : np_argmax_bool (volume.map
            (fun v => decide ((1/4 : ℚ) * np_max volume ≤ v))) ≤
          np_argmax_bool (volume.map
            (fun v => decide ((1/2 : ℚ) * np_max volume ≤ v))) ∧
          np_argmax_bool (volume.map
            (fun v => decide ((1/2 : ℚ) * np_max volume ≤ v))) ≤
          np_argmax_bool (volume.map
            (fun v => decide ((3/4 : ℚ) * np_max volume ≤ v))) ∧
          np_argmax_bool (volume.map
            (fun v => decide ((3/4 : ℚ) * np_max volume ≤ v))) < flow.length
      · rw [if_pos h3] at hc
        cases hc
      · rw [if_neg h3] at hc
        cases hc

/-- C9 witness: unreachability of the `ValueError` at the concrete volume
curve `[1, 2]`. -/
theorem C9_valueerror_unreachable_witness :
    (([1, 2] : List ℚ) ≠ [] ∧ (0 : ℚ) ≤ np_max [1, 2]) ∧
    ((∃ x ∈ ([1, 2] : List ℚ), x = np_max [1, 2] ∧ (3/4 : ℚ) * np_max [1, 2] ≤ x) ∧
      ∀ flow : List ℚ,
        compute_fef flow [1, 2] (np_max [1, 2]) ≠ Except.error FefErr.noFef75) :=
  ⟨⟨List.cons_ne_nil 1 [2], by norm_num [np_max]⟩,
    C9_valueerror_unreachable [1, 2] (List.cons_ne_nil 1 [2]) (by norm_num [np_max])⟩

theorem length_np_linspace (start stop : ℚ) (num : Nat) :
    (np_linspace start stop num).length = num := by
  rw [np_linspace]
  rw [List.length_map]
  exact List.length_range num

theorem np_interp_point_out_of_range (q : ℚ) (xp fp : List ℚ) (hne : xp ≠ [])
    (hrange : q < np_min xp ∨ np_max xp < q) :
    np_interp_point q xp fp = 0 := by
  cases xp with
  | nil => exact absurd rfl hne
  | cons x0 rest =>
    rw [np_interp_point]
    rcases hrange with hlo | hhi
    · rw [if_pos (lt_of_lt_of_le hlo (np_min_le_head x0 rest))]
    · by_cases hq : q < x0
      · rw [if_pos hq]
      · rw [if_neg hq]
        have hlast : (x0 :: rest).getLast (List.cons_ne_nil x0 rest) ≤
            np_max (x0 :: rest) :=
          le_np_max_of_mem (List.getLast_mem (List.cons_ne_nil x0 rest))
        rw [if_pos (lt_of_le_of_lt hlast hhi)]

/-- C6: whenever `compute_flow_volume` succeeds, its output has exactly
`num_points` values, and every query point strictly below the minimum of the
monotonic (running-maximum) volume curve or strictly above its maximum is
assigned flow value `0`. -/
theorem C6_interp_boundary (flow volume : List ℚ) (min_volume max_volume : ℚ)
    (num_points : Nat) (out : List ℚ)
    (h : compute_flow_volume flow volume min_volume max_volume num_points =
      Except.ok out) :
    out.length = num_points ∧
    ∀ i q, (np_linspace min_volume max_volume num_points).get? i = some q →
      (q < np_min (np_maximum_accumulate volume) ∨
        np_max (np_maximum_accumulate volume) < q) →
      out.get? i = some 0 := by
  rw [compute_flow_volume,
    if_pos (np_maximum_accumulate_diff_nonneg volume)] at h
  by_cases hcond : np_maximum_accumulate volume = [] ∨
      flow.length ≠ (np_maximum_accumulate volume).length
  · rw [if_pos hcond] at h
    cases h
  · rw [if_neg hcond] at h
    have hne : np_maximum_accumulate volume ≠ [] := fun hc => hcond (Or.inl hc)
    have hout : out = (np_linspace min_volume max_volume num_points).map
        (fun q => np_interp_point q (np_maximum_accumulate volume) flow) := by
      cases h
      rfl
    constructor
    · rw [hout, List.length_map, length_np_linspace]
    · intro i q hq hrange
      rw [hout, List.get?_map, hq, Option.map_some',
        np_interp_point_out_of_range q _ flow hne hrange]

/-- C6 witness: a concrete run in which the whole query grid lies outside the
observed volume range and every output sample is `0`. -/
theorem C6_interp_boundary_witness :
    compute_flow_volume [3, 4] [1, 2] 0 5 3 = Except.ok [0, 0, 0] ∧
    (([0, 0, 0] : List ℚ).length = 3 ∧
      ∀ i q, (np_linspace 0 5 3).get? i = some q →
        (q < np_min (np_maximum_accumulate [1, 2]) ∨
          np_max (np_maximum_accumulate [1, 2]) < q) →
        ([0, 0, 0] : List ℚ).get? i = some 0) := by
  have hok : compute_flow_volume [3, 4] [1, 2] 0 5 3 = Except.ok [0, 0, 0] := by
    norm_num [compute_flow_volume, np_maximum_accumulate, np_maximum_accumulate_from,
      np_diff, np_linspace, np_interp_point, np_interp_go, List.range_succ]
    exact fun h => absurd h (List.cons_ne_nil 1 [2])
  exact ⟨hok, C6_interp_boundary [3, 4] [1, 2] 0 5 3 [0, 0, 0] hok⟩
